import Mathlib

/-!
Shallow embedding of the core of the go-ini library (package `ini`):
the document model (`iniItem`, `iniSection`, `INI`), the scalar scanner
(`scanString`), the line reader (`INI.ReadFrom`), the printer
(`INI.WriteTo`) and the accessor/mutator API (`Get`/`Set`/`Del`/...).

Conventions of the embedding:
* Go byte slices are modeled as `List Char`; all inputs considered are
  ASCII, so `strings.ToLower` and `unicode.IsSpace` are modeled on the
  ASCII fragment (plus the two Latin-1 spaces recognized by Go).
* A `nil` `*iniItem` (the blank-line block separator) is `none`;
  a live entry is `some item`.
* Go runtime panics (nil-pointer dereference, index out of range) are
  modeled as explicit `panicked` outcomes, distinct from returned errors.
* Pointer aliasing in the reader (`current *iniSection`) is modeled by a
  cursor value (`Cur`): the global section, a named section index, or a
  target that is no longer reachable from the document.
-/

/-- ASCII fragment of Go `unicode.IsSpace` (plus U+0085, U+00A0). -/
def goIsSpace (c : Char) : Bool :=
  c == ' ' || c == '\t' || c == '\n' || c == Char.ofNat 11 || c == Char.ofNat 12 ||
  c == '\r' || c == Char.ofNat 0x85 || c == Char.ofNat 0xA0

/-- ASCII lower-casing of one character (the fragment of `strings.ToLower`
relevant to ASCII inputs). -/
def lowerChar (c : Char) : Char :=
  if 'A' ≤ c && c ≤ 'Z' then Char.ofNat (c.toNat + 32) else c

/-- `strings.ToLower` on ASCII strings. -/
def toLowerGo (s : String) : String := ⟨s.data.map lowerChar⟩

/-- `ident` (ini.go): returns a lowercased identifier if required. -/
def ident (isCaseSensitive : Bool) (s : String) : String :=
  if isCaseSensitive then s else toLowerGo s

/-- `iniItem` (section source file): a key/value pair with comments. -/
structure iniItem where
  Comments : List String
  Key : String
  Value : String
deriving Repr, DecidableEq, Inhabited

/-- `iniSection`: comments, name, and data, where a `none` entry is the
blank-line block separator (`nil *iniItem` in the source). -/
structure iniSection where
  Comments : List String
  Name : String
  Data : List (Option iniItem)
deriving Repr, DecidableEq, Inhabited

/-- `INI` (ini.go): the document with its configuration. -/
structure INI where
  comment : String
  isCaseSensitive : Bool
  mergeSections : Nat
  sliceSep : Char
  mapkeySep : Char
  global : iniSection
  sections : List iniSection
deriving Repr, DecidableEq, Inhabited

/-- Constant `mergeSections = 1 + iota` in ini.go's const block
(`iniTagID` occupies iota 0, so the value is 2). -/
def mergeSectionsOpt : Nat := 2

/-- Constant `mergeSectionsWithComments` (value 3). -/
def mergeSectionsWithCommentsOpt : Nat := 3

/-- Constant `mergeSectionsWithLastComments` (value 4). -/
def mergeSectionsWithLastCommentsOpt : Nat := 4

/-- `New(options...)`: applies the comment/case/merge options, then
defaults the comment prefix to ";" when unset. -/
def newINI (commentOpt : String) (caseSensitiveOpt : Bool) (mergeOpt : Nat) : INI :=
  { comment := if commentOpt = "" then ";" else commentOpt
    isCaseSensitive := caseSensitiveOpt
    mergeSections := mergeOpt
    sliceSep := ','
    mapkeySep := ':'
    global := ⟨[], "", []⟩
    sections := [] }

/-- `New()` with no options. -/
def iniDefault : INI := newINI "" false 0

/-- Result of `scanString`: the value bytes, the returned error, or a
runtime panic. -/
inductive ScanResult where
  | ok (value : List Char)
  | fail (msg : String)
  | panicked (msg : String)
deriving Repr, DecidableEq

/-- Outcome of the scan loop inside `scanString`. -/
inductive ScanLoopOut where
  | done (idx : Nat) (escapers : List Nat)
  | fail
  | panicked
deriving Repr, DecidableEq

/-- The `for buf[idx] != quote` loop of `scanString` (read source file,
lines 227-238).  Reading `buf[idx]` out of range is a panic.  The check
`idx == n` is performed after the increments, exactly as in the source;
a backslash as the last byte therefore skips it.  `fuel` only bounds the
recursion and is chosen large enough (the index strictly increases). -/
def scanStringLoop (buf : List Char) (quote : Char) (n : Nat) :
    Nat → Nat → List Nat → ScanLoopOut
  | 0, _, _ => ScanLoopOut.panicked
  | fuel+1, idx, escapers =>
    match buf.get? idx with
    | none => ScanLoopOut.panicked
    | some c =>
      if c == quote then ScanLoopOut.done idx escapers
      else
        let step := if c == '\\' then (idx + 2, escapers ++ [idx]) else (idx + 1, escapers)
        if step.1 == n then ScanLoopOut.fail
        else scanStringLoop buf quote n fuel step.1 step.2

/-- Escaper elision: drops the characters at the recorded backslash
positions (`pos` counts positions in the original buffer).  This is the
functional reading of the in-place `copy` loop of `scanString`. -/
def removeEsc : List Char → Nat → List Nat → List Char
  | [], _, _ => []
  | c :: rest, pos, esc =>
    if esc.contains pos then removeEsc rest (pos+1) esc
    else c :: removeEsc rest (pos+1) esc

/-- `scanString` (read source file): scans a value and handles quoted
strings.  Zero- or one-byte input, or input not starting with a quote,
is returned unchanged. -/
def scanString (buf : List Char) : ScanResult :=
  let n := buf.length
  if n = 0 || n = 1 then ScanResult.ok buf
  else
    let quote := buf.headD ' '
    if quote ≠ '"' && quote ≠ '\'' then ScanResult.ok buf
    else
      match scanStringLoop buf quote n (n+1) 1 [] with
      | ScanLoopOut.fail => ScanResult.fail "string literal not terminated"
      | ScanLoopOut.panicked => ScanResult.panicked "runtime error: index out of range"
      | ScanLoopOut.done idx escapers =>
        ScanResult.ok (removeEsc ((buf.take idx).drop 1) 1 escapers)

/-- `stripNewline`: buf may end with `\n` or `\r\n`.  (Faithfully, the
source drops the last two bytes whenever the second-to-last is `\r`.) -/
def stripNewline (buf : List Char) : List Char :=
  let n := buf.length
  if 0 < n then
    if 1 < n && buf.getD (n-2) ' ' == '\r' then buf.take (n-2)
    else if buf.getD (n-1) ' ' == '\n' then buf.take (n-1)
    else buf
  else buf

/-- `bufio.ReadBytes('\n')` decomposition: splits the input into chunks
each ending with `'\n'`, the last possibly without one. -/
def splitLinesAux : List Char → List Char → List (List Char)
  | [], acc => if acc.isEmpty then [] else [acc.reverse]
  | c :: rest, acc =>
    if c == '\n' then (acc.reverse ++ ['\n']) :: splitLinesAux rest []
    else splitLinesAux rest (c :: acc)

/-- All lines delivered by successive `ReadBytes('\n')` calls. -/
def splitLinesGo (s : List Char) : List (List Char) := splitLinesAux s []

/-- `dedupItems` (read source file): deduplicates items of `a` against
the incoming batch `b` (never within a slice); the surviving prefix of
`a` is followed by `b`.  Both keys are passed through `ident`. -/
def dedupItems (flag : Bool) : List (Option iniItem) → List iniItem → List (Option iniItem)
  | [], b => b.map some
  | none :: a, b => none :: dedupItems flag a b
  | some itemA :: a, b =>
    if b.any (fun itemB => ident flag itemA.Key == ident flag itemB.Key) then
      dedupItems flag a b
    else
      some itemA :: dedupItems flag a b

/-- Simulation of the in-batch key dedup loop of `ReadFrom` (read source
file, lines 139-147): `copy(items[i:], items[i+1:]); items[n] = nil;
items = items[:n]` applied to the underlying array, with the live length
tracked separately. -/
def shiftRemove (arr : List (Option iniItem)) (i live : Nat) : List (Option iniItem) :=
  arr.take i ++ ((arr.take live).drop (i+1)) ++ none :: arr.drop live

/-- The `for i, item := range items` dedup loop of `ReadFrom`.  The range
header is captured once, so the loop visits the original length even
after removals; slots vacated by a removal hold `nil`, and evaluating
`item.Key` on such a slot is a nil-pointer dereference (a panic).  The
comparison is `ident(flag, item.Key) != key` with the raw (unfolded) new
key on the right, exactly as in the source. -/
def dedupBatchLoop (flag : Bool) (key : String) :
    Nat → Nat → List (Option iniItem) → Nat → Except String (List (Option iniItem) × Nat)
  | 0, _, arr, live => Except.ok (arr, live)
  | fuel+1, i, arr, live =>
    match arr.get? i with
    | none => Except.ok (arr, live)
    | some none =>
      Except.error "runtime error: invalid memory address or nil pointer dereference"
    | some (some item) =>
      if ident flag item.Key == key then
        dedupBatchLoop flag key fuel (i+1) (shiftRemove arr i live) (live - 1)
      else
        dedupBatchLoop flag key fuel (i+1) arr live

/-- Runs the in-batch dedup loop on the pending items for a new key. -/
def dedupBatch (flag : Bool) (key : String) (items : List iniItem) :
    Except String (List iniItem) :=
  match dedupBatchLoop flag key items.length 0 (items.map some) items.length with
  | Except.error m => Except.error m
  | Except.ok (arr, live) => Except.ok ((arr.take live).filterMap id)

/-- The reader's `current *iniSection` pointer: the global section, a
named section (by index), or a section object removed from the document
(writes to it are unobservable). -/
inductive Cur where
  | global
  | named (i : Nat)
  | lost
deriving Repr, DecidableEq

/-- The reader's loop state: pending comments, pending items, the
current-section cursor, and the document built so far. -/
structure RState where
  comments : List String
  items : List iniItem
  current : Option Cur
  ini : INI
deriving Repr, DecidableEq

/-- First section whose identity matches `name` (cf. `getSection`). -/
def findSecIdx? (flag : Bool) (name : String) (l : List iniSection) : Option Nat :=
  l.findIdx? (fun s => ident flag s.Name == ident flag name)

/-- Removal of the section at an index (the `copy`/truncate in `rmSection`). -/
def removeNth : Nat → List iniSection → List iniSection
  | _, [] => []
  | 0, _ :: rest => rest
  | n+1, s :: rest => s :: removeNth n rest

/-- In-place update of the section at an index (a write through a
`*iniSection` held into `ini.sections`). -/
def modifyNthSec (f : iniSection → iniSection) : Nat → List iniSection → List iniSection
  | _, [] => []
  | 0, s :: rest => f s :: rest
  | n+1, s :: rest => s :: modifyNthSec f n rest

/-- `addItemsToSection` restricted to one section value: appends the
deduplicated batch followed by one blank-line separator; a nil batch is
a no-op. -/
def addItems (flag : Bool) (items : List iniItem) (sec : iniSection) : iniSection :=
  if items.isEmpty then sec
  else { sec with Data := dedupItems flag sec.Data items ++ [none] }

/-- Applies a section mutation through the cursor.  When the cursor is
`none`, `addItemsToSection` allocates a fresh section that is never
attached to the document (read source file, lines 179-181), and when it
is `lost` the target was removed from the document: in both cases the
mutation is unobservable. -/
def applyCur (f : iniSection → iniSection) (cur : Option Cur) (ini : INI) : INI :=
  match cur with
  | some Cur.global => { ini with global := f ini.global }
  | some (Cur.named i) => { ini with sections := modifyNthSec f i ini.sections }
  | some Cur.lost => ini
  | none => ini

/-- `updateSection` on one section value: the merge-policy switch over
the comments (plain merge and merge-with-last-comments and the default
all replace; merge-with-comments appends), then `addItemsToSection`. -/
def updateSec (policy : Nat) (flag : Bool) (items : List iniItem) (comments : List String)
    (sec : iniSection) : iniSection :=
  let sec1 :=
    match policy with
    | 2 => { sec with Comments := comments }
    | 3 => { sec with Comments := sec.Comments ++ comments }
    | 4 => { sec with Comments := comments }
    | _ => { sec with Comments := comments }
  addItems flag items sec1

/-- The section-creation tail of the `[name]` branch of `ReadFrom`
(read source file, lines 102-113): flush pending items to the old
current section, append the new section, move the cursor to it. -/
def createSection (name : String) (st : RState) : RState :=
  let newSec : iniSection := { Comments := st.comments, Name := name, Data := [] }
  let ini1 := applyCur (addItems st.ini.isCaseSensitive st.items) st.current st.ini
  { comments := [], items := [],
    current := some (Cur.named ini1.sections.length),
    ini := { ini1 with sections := ini1.sections ++ [newSec] } }

/-- `rmSection` as used in the `[name]` branch: removes the first
matching section and reindexes the cursor; if the cursor's target was
removed, it now points outside the document. -/
def rmSectionCur (name : String) (st : RState) : RState :=
  match findSecIdx? st.ini.isCaseSensitive name st.ini.sections with
  | none => st
  | some r =>
    { st with
      ini := { st.ini with sections := removeNth r st.ini.sections }
      current :=
        match st.current with
        | some (Cur.named j) =>
          if j = r then some Cur.lost
          else if r < j then some (Cur.named (j-1))
          else some (Cur.named j)
        | c => c }

/-- The `[name]` branch of `ReadFrom` after extracting a non-empty name:
without merging, any previous section of that identity is removed and a
new one created; with merging, an existing section becomes current and
is updated, otherwise a new one is created. -/
def handleSection (name : String) (st : RState) : RState :=
  if st.ini.mergeSections = 0 then
    createSection name (rmSectionCur name st)
  else
    match findSecIdx? st.ini.isCaseSensitive name st.ini.sections with
    | some j =>
      { comments := [], items := [],
        current := some (Cur.named j),
        ini := { st.ini with
                 sections := modifyNthSec
                   (updateSec st.ini.mergeSections st.ini.isCaseSensitive st.items st.comments)
                   j st.ini.sections } }
    | none => createSection name st

/-- Read failure: a returned error or a runtime panic. -/
inductive RFail where
  | fail (msg : String)
  | panicked (msg : String)
deriving Repr, DecidableEq

/-- Trailing-whitespace trim for key names (`bytes.TrimRightFunc`). -/
def trimRightSpace (l : List Char) : List Char :=
  (l.reverse.dropWhile goIsSpace).reverse

/-- One iteration of the `ReadFrom` loop on an already-read line `raw`
(`n` is the 1-based line number): strip the newline, trim leading
whitespace, then dispatch on blank line / section header / comment /
key-value, exactly in the source's order. -/
def processLine (n : Nat) (raw : List Char) (st : RState) : Except RFail RState :=
  let line := (stripNewline raw).dropWhile goIsSpace
  if line.isEmpty then
    Except.ok
      (match st.current with
       | none =>
         if st.comments.isEmpty && st.items.isEmpty then st
         else
           { comments := [], items := [],
             current := some Cur.global,
             ini := { st.ini with
                      global := updateSec st.ini.mergeSections st.ini.isCaseSensitive
                        st.items st.comments st.ini.global } }
       | some _ =>
         { st with
           comments := []
           items := []
           ini := applyCur (addItems st.ini.isCaseSensitive st.items) st.current st.ini })
  else if line.headD ' ' == '[' then
    match line.findIdx? (fun c => c == ']') with
    | none => Except.error (RFail.fail ("ini: " ++ toString n ++ ": missing ]"))
    | some i =>
      let name : String := ⟨(line.take i).drop 1⟩
      if name = "" then Except.error (RFail.fail "invalid section name")
      else Except.ok (handleSection name st)
  else if st.ini.comment.data.isPrefixOf line then
    Except.ok { st with comments := st.comments ++ [(⟨line.drop 1⟩ : String)] }
  else
    match line.findIdx? (fun c => c == '=') with
    | none => Except.error (RFail.fail ("ini: " ++ toString n ++ ": missing ="))
    | some i =>
      let key : String := ⟨trimRightSpace (line.take i)⟩
      let valueBytes := (line.drop (i+1)).dropWhile goIsSpace
      match scanString valueBytes with
      | ScanResult.panicked m => Except.error (RFail.panicked m)
      | ScanResult.fail m =>
        Except.error (RFail.fail ("ini: " ++ toString n ++ ": " ++ m))
      | ScanResult.ok v =>
        match dedupBatch st.ini.isCaseSensitive key st.items with
        | Except.error m => Except.error (RFail.panicked m)
        | Except.ok items1 =>
          Except.ok { st with
                      comments := []
                      items := items1 ++ [⟨st.comments, key, (⟨v⟩ : String)⟩] }

/-- End-of-input flush of `ReadFrom` (read source file, lines 47-53):
into the global section if no section context was established, else into
the current section. -/
def eofFlush (st : RState) : INI :=
  match st.current with
  | none =>
    { st.ini with
      global := updateSec st.ini.mergeSections st.ini.isCaseSensitive
        st.items st.comments st.ini.global }
  | some _ => applyCur (addItems st.ini.isCaseSensitive st.items) st.current st.ini

/-- The reader loop over the lines, with 1-based line numbering. -/
def readLoop : List (List Char) → Nat → RState → Except RFail INI
  | [], _, st => Except.ok (eofFlush st)
  | l :: rest, n, st =>
    match processLine n l st with
    | Except.error e => Except.error e
    | Except.ok st1 => readLoop rest (n+1) st1

/-- `INI.ReadFrom`: populates the document from the input text. -/
def INI.ReadFrom (ini : INI) (input : String) : Except RFail INI :=
  readLoop (splitLinesGo input.data) 1 ⟨[], [], none, ini⟩

/-- `printComments` (write.go): one line per comment, each prefixed by
the comment marker. -/
def printComments (pre : String) (cs : List String) : String :=
  cs.foldl (fun acc s => acc ++ pre ++ s ++ "\n") ""

/-- Left-justified key padding of `fmt.Sprintf("%-<n>s = %s\n")`. -/
def padKey (k : String) (n : Nat) : String :=
  k ++ ⟨List.replicate (n - k.length) ' '⟩

/-- One block of entries: the equal signs are aligned on the longest key
of the block, each entry preceded by its own comments. -/
def printBlock (pre : String) (block : List iniItem) : String :=
  let n := block.foldl (fun acc it => max acc it.Key.length) 0
  block.foldl
    (fun acc it => acc ++ printComments pre it.Comments ++ padKey it.Key n ++ " = " ++ it.Value ++ "\n")
    ""

/-- Decomposition of a section's data into blocks, mirroring the
`printSection` loop: a block ends at a separator; a separator that
terminates the data produces no further block. -/
def splitBlocksAux : List (Option iniItem) → List iniItem → List (List iniItem)
  | [], acc => [acc.reverse]
  | none :: rest, acc => if rest.isEmpty then [acc.reverse] else acc.reverse :: splitBlocksAux rest []
  | some x :: rest, acc => splitBlocksAux rest (x :: acc)

/-- The blocks printed for a section's data (empty data prints nothing). -/
def splitBlocks (data : List (Option iniItem)) : List (List iniItem) :=
  if data.isEmpty then [] else splitBlocksAux data []

/-- `printSection` (write.go): section comments, the `[name]` header for
a named section (or a separating blank line for a global section whose
comments were printed), then the blocks separated by single blank
lines. -/
def printSection (pre : String) (sec : iniSection) : String :=
  let cs := printComments pre sec.Comments
  let head :=
    if sec.Name ≠ "" then "[" ++ sec.Name ++ "]\n"
    else if cs.length > 0 then "\n"
    else ""
  cs ++ head ++ String.intercalate "\n" ((splitBlocks sec.Data).map (printBlock pre))

/-- The named sections of `WriteTo`: a blank separator line before each
section except before the first when nothing was written yet. -/
def printSections (pre : String) (sep0 : Bool) : List iniSection → String
  | [] => ""
  | s :: rest => (if sep0 then "\n" else "") ++ printSection pre s ++ printSections pre true rest

/-- `INI.WriteTo`: the global section first, then the named sections. -/
def INI.WriteTo (ini : INI) : String :=
  printSection ini.comment ini.global ++
    printSections ini.comment (ini.global.Data.length > 0) ini.sections

/-- `iniSection.get`/`getItem` folded into value lookup: the first live
entry whose identity matches the key. -/
def getVal? (flag : Bool) (key : String) : List (Option iniItem) → Option String
  | [] => none
  | none :: rest => getVal? flag key rest
  | some it :: rest =>
    if ident flag it.Key == ident flag key then some it.Value else getVal? flag key rest

/-- `getItem` as entry lookup (used by `GetComments`). -/
def getItem? (flag : Bool) (key : String) : List (Option iniItem) → Option iniItem
  | [] => none
  | none :: rest => getItem? flag key rest
  | some it :: rest =>
    if ident flag it.Key == ident flag key then some it else getItem? flag key rest

/-- First section whose identity matches (cf. `getSection` on the list
of named sections). -/
def findSec? (flag : Bool) (name : String) : List iniSection → Option iniSection
  | [] => none
  | sec :: rest =>
    if ident flag sec.Name == ident flag name then some sec else findSec? flag name rest

/-- `getSection`: the global section for the empty name, else the first
identity match among the named sections (or nothing). -/
def INI.getSectionVal (ini : INI) (sname : String) : Option iniSection :=
  if sname = "" then some ini.global
  else findSec? ini.isCaseSensitive sname ini.sections

/-- `INI.Get`: the value for the key in the section, or the empty string
when the section or the key is missing. -/
def INI.Get (ini : INI) (sname key : String) : String :=
  match ini.getSectionVal sname with
  | none => ""
  | some sec =>
    match getVal? ini.isCaseSensitive key sec.Data with
    | none => ""
    | some v => v

/-- `INI.Has`: section existence for an empty key, else key existence. -/
def INI.Has (ini : INI) (sname key : String) : Bool :=
  if key = "" then (ini.getSectionVal sname).isSome
  else
    match ini.getSectionVal sname with
    | none => false
    | some sec => (getVal? ini.isCaseSensitive key sec.Data).isSome

/-- `INI.GetComments`: the section comments for an empty key, else the
comments of the matching entry. -/
def INI.GetComments (ini : INI) (sname key : String) : List String :=
  match ini.getSectionVal sname with
  | none => []
  | some sec =>
    if key = "" then sec.Comments
    else
      match getItem? ini.isCaseSensitive key sec.Data with
      | none => []
      | some it => it.Comments

/-- The key-update step of `INI.Set` on a section's data: overwrite the
first entry of matching identity in place (keeping its comments and
position), else append a fresh entry at the end. -/
def setKey (flag : Bool) (key value : String) : List (Option iniItem) → List (Option iniItem)
  | [] => [some ⟨[], key, value⟩]
  | none :: rest => none :: setKey flag key value rest
  | some it :: rest =>
    if ident flag it.Key == ident flag key then
      some { it with Key := key, Value := value } :: rest
    else
      some it :: setKey flag key value rest

/-- `INI.Set` restricted to one section value: an empty key appends one
separator unless the data is empty or already ends with one; a
non-empty key goes through `setKey`. -/
def setInSec (flag : Bool) (key value : String) (sec : iniSection) : iniSection :=
  if key = "" then
    match sec.Data.getLast? with
    | some (some _) => { sec with Data := sec.Data ++ [none] }
    | _ => sec
  else
    { sec with Data := setKey flag key value sec.Data }

/-- `INI.Set` on the named sections: the first section of matching
identity gets its stored name overwritten by the argument and is
updated; with no match a fresh section is created at the end
(cf. `addSection`). -/
def setSec (flag : Bool) (sname key value : String) : List iniSection → List iniSection
  | [] => [setInSec flag key value ⟨[], sname, []⟩]
  | sec :: rest =>
    if ident flag sec.Name == ident flag sname then
      setInSec flag key value { sec with Name := sname } :: rest
    else
      sec :: setSec flag sname key value rest

/-- `INI.Set`: adds the key with its value to the section, creating the
section if needed; an empty key records a blank separator line. -/
def INI.Set (ini : INI) (sname key value : String) : INI :=
  if sname = "" then
    { ini with global := setInSec ini.isCaseSensitive key value { ini.global with Name := sname } }
  else
    { ini with sections := setSec ini.isCaseSensitive sname key value ini.sections }

/-- `iniSection.rmItem` as removal of the first matching entry: the
entry is removed together with the separator that follows it when the
entry opened a block (it is first, or preceded by a separator) and the
following element is a separator.  `prevOK` records that context. -/
def rmKeyAux (flag : Bool) (key : String) (prevOK : Bool) :
    List (Option iniItem) → List (Option iniItem) × Bool
  | [] => ([], false)
  | none :: rest =>
    let r := rmKeyAux flag key true rest
    (none :: r.1, r.2)
  | some it :: rest =>
    if ident flag it.Key == ident flag key then
      match rest with
      | none :: rest2 => if prevOK then (rest2, true) else (rest, true)
      | _ => (rest, true)
    else
      let r := rmKeyAux flag key false rest
      (some it :: r.1, r.2)

/-- `rmItem` entry point (the first entry is treated as block-opening). -/
def rmKey (flag : Bool) (key : String) (data : List (Option iniItem)) :
    List (Option iniItem) × Bool :=
  rmKeyAux flag key true data

/-- `rmSection`: removes the first section of matching identity. -/
def rmSec (flag : Bool) (sname : String) : List iniSection → List iniSection × Bool
  | [] => ([], false)
  | sec :: rest =>
    if ident flag sec.Name == ident flag sname then (rest, true)
    else
      let r := rmSec flag sname rest
      (sec :: r.1, r.2)

/-- `INI.Del`: an empty key deletes the section (resetting the global
one for an empty section name); otherwise removes the matching entry
from the section. -/
def INI.Del (ini : INI) (sname key : String) : INI × Bool :=
  if key = "" then
    if sname = "" then ({ ini with global := ⟨[], "", []⟩ }, true)
    else
      let r := rmSec ini.isCaseSensitive sname ini.sections
      ({ ini with sections := r.1 }, r.2)
  else
    if sname = "" then
      let r := rmKey ini.isCaseSensitive key ini.global.Data
      ({ ini with global := { ini.global with Data := r.1 } }, r.2)
    else
      match findSecIdx? ini.isCaseSensitive sname ini.sections with
      | none => (ini, false)
      | some j =>
        match ini.sections.get? j with
        | none => (ini, false)
        | some sec =>
          let r := rmKey ini.isCaseSensitive key sec.Data
          ({ ini with sections := modifyNthSec (fun s => { s with Data := r.1 }) j ini.sections },
           r.2)

/-- `INI.Sections`: the stored names of the named sections. -/
def INI.Sections (ini : INI) : List String := ini.sections.map (fun s => s.Name)

/-- `INI.Keys`: the key of each entry of the section in order, with an
empty string standing for each separator. -/
def INI.Keys (ini : INI) (sname : String) : List String :=
  match ini.getSectionVal sname with
  | none => []
  | some sec =>
    sec.Data.map (fun e => match e with | none => "" | some it => it.Key)

/-- One read-then-write pass over an input under default options
(`write(read(input))` of the round-trip property), undefined when the
read fails. -/
def roundTrip (input : String) : Option String :=
  match iniDefault.ReadFrom input with
  | Except.ok d => some d.WriteTo
  | _ => none

/-- No two adjacent block-separator sentinels in a data sequence. -/
def adjOK : List (Option iniItem) → Bool
  | none :: none :: _ => false
  | _ :: rest => adjOK rest
  | [] => true

/-- The data sequence does not begin with a block-separator sentinel. -/
def headOK : List (Option iniItem) → Bool
  | none :: _ => false
  | _ => true

/-- The data invariant of the specification's document model: no leading
separator and no adjacent separators. -/
def InvData (d : List (Option iniItem)) : Bool := headOK d && adjOK d

/-- The data invariant for every section of a document. -/
def InvINI (ini : INI) : Bool :=
  InvData ini.global.Data && ini.sections.all (fun s => InvData s.Data)

/-! ## Validation of the embedding against the repository's own tests -/

/-- The model reproduces the exact output of `TestOverwritingSections`. -/
theorem writeTo_overwriting_sections_test :
    (iniDefault.ReadFrom
        "a=b\n\nx=y\n\n[sectionA]\nkey1 = abc\nkey2 = xyz\n\n[sectionA]\nkey1 = v1.1\nk2   = v1.2\n").map
      INI.WriteTo
      = Except.ok "a = b\n\nx = y\n\n[sectionA]\nkey1 = v1.1\nk2   = v1.2\n" := by
  rfl

/-- The model reproduces the exact output of `TestMergingSections`. -/
theorem writeTo_merging_sections_test :
    ((newINI "" false mergeSectionsOpt).ReadFrom
        "\n[sectionA]\nkey1 = abc\nkey2 = xyz\n\n[sectionA]\nkey1 = v1.1\nk2   = v1.2\n").map
      INI.WriteTo
      = Except.ok "[sectionA]\nkey2 = xyz\n\nkey1 = v1.1\nk2   = v1.2\n" := by
  rfl

/-! ## C4: the scalar scanner on unterminated quoted input -/

/-- C4: a quoted value buffer whose last byte is a backslash makes the
`scanString` loop step past the `idx == n` end-of-buffer check, so the
next loop-condition read `buf[idx]` is out of range: the scanner panics
instead of returning the "string literal not terminated" error.  (For
comparison, the plain unterminated buffer `"abc` does hit the check and
returns the error.) -/
theorem scanString_trailing_backslash_out_of_bounds :
    scanString ['"', '\\'] = ScanResult.panicked "runtime error: index out of range"
    ∧ scanString ['"', 'a', '\\'] = ScanResult.panicked "runtime error: index out of range"
    ∧ scanString ['"', 'a', 'b', 'c'] = ScanResult.fail "string literal not terminated" := by
  exact ⟨rfl, rfl, rfl⟩

/-! ## C2: in-batch key deduplication -/

/-- C2: the dedup loop of `ReadFrom` panics with a nil-pointer
dereference when the pending duplicate is not the most recent pending
entry (the range header is stale after the in-place removal), and in
case-insensitive mode a differently-cased duplicate is not removed at
all (the new key is compared raw), leaving two live entries of the same
identity in the global section. -/
theorem readFrom_batch_dedup_broken :
    iniDefault.ReadFrom "a=1\nb=2\na=3\n"
      = Except.error
          (RFail.panicked "runtime error: invalid memory address or nil pointer dereference")
    ∧ iniDefault.ReadFrom "a=1\nA=2\n"
      = Except.ok
          { iniDefault with
            global := ⟨[], "", [some ⟨[], "a", "1"⟩, some ⟨[], "A", "2"⟩, none]⟩ }
    ∧ ident false "A" = ident false "a" := by
  exact ⟨rfl, rfl, rfl⟩

/-! ## C3: keys before the first section header -/

/-- C3: a key/value line directly followed by a section header (no blank
line, no end of input in between) is flushed through a nil `current`
pointer: `addItemsToSection` allocates a throwaway section and the key
is silently dropped instead of landing in the global section.  After the
read, `Get`/`Has` on the global section do not see the key, while the
named section parsed normally. -/
theorem readFrom_drops_preheader_keys :
    (iniDefault.ReadFrom "a=1\n[s]\nb=2\n").map
        (fun d => (d.Get "" "a", d.Has "" "a", d.Keys "", d.Get "s" "b"))
      = Except.ok ("", false, [], "2") := by
  rfl

/-! ## C1: round-tripping write after read -/

/-- C1 counterexample: reading `[s]\na=1\n\na=2\n` dedups the earlier
block away, leaving section data that begins with a separator; the
printer renders that as a blank line after the header, which the second
read drops, so the second read-then-write output differs from the
first. -/
theorem roundTrip_not_idempotent :
    roundTrip "[s]\na=1\n\na=2\n" = some "[s]\n\na = 2\n"
    ∧ roundTrip "[s]\n\na = 2\n" = some "[s]\na = 2\n"
    ∧ ("[s]\n\na = 2\n" : String) ≠ "[s]\na = 2\n" := by
  refine ⟨rfl, rfl, ?_⟩
  decide

/-- C1 amended: one write-after-read is byte-idempotent whenever its
output re-parses to the very same document; the second pass then
reproduces the first pass's output exactly. -/
theorem roundTrip_idempotent_of_reparse_eq (x : String) (d : INI)
    (h1 : iniDefault.ReadFrom x = Except.ok d)
    (h2 : iniDefault.ReadFrom d.WriteTo = Except.ok d) :
    roundTrip x = some d.WriteTo ∧ roundTrip d.WriteTo = some d.WriteTo := by
  constructor
  · simp [roundTrip, h1]
  · simp [roundTrip, h2]

/-- Witness for C1 amended at the input `k = v\n`, whose parse is
reproduced exactly by re-reading its own print. -/
theorem roundTrip_idempotent_of_reparse_eq_witness :
    roundTrip "k = v\n" = some "k = v\n" ∧ roundTrip "k = v\n" = some "k = v\n" :=
  roundTrip_idempotent_of_reparse_eq "k = v\n"
    { iniDefault with global := ⟨[], "", [some ⟨[], "k", "v"⟩, none]⟩ } rfl rfl

/-! ## C5: re-encountering a section under the plain merge policy -/

/-- C5 counterexample: under plain `MergeSections`, re-encountering
`[s]` replaces the existing section's comments with the new header's
pending comments (`["new"]`), instead of discarding the new comments
and keeping `["old"]`. -/
theorem plain_merge_replaces_section_comments :
    ((newINI "" false mergeSectionsOpt).ReadFrom ";old\n[s]\na=1\n\n;new\n[s]\nb=2\n").map
        (fun d => d.GetComments "s" "")
      = Except.ok ["new"]
    ∧ (["new"] : List String) ≠ ["old"] := by
  refine ⟨rfl, ?_⟩
  decide

/-- C5 amended: under the plain merge policy, a re-encountered section
header switches the cursor to the existing section, flushes the pending
items into it, creates no new section object, and sets the existing
section's comments to the new header's pending comments (the same
behaviour as merge-with-last-comments). -/
theorem handleSection_plain_merge (st : RState) (name : String) (j : Nat)
    (hpol : st.ini.mergeSections = mergeSectionsOpt)
    (hfind : findSecIdx? st.ini.isCaseSensitive name st.ini.sections = some j) :
    handleSection name st
      = { comments := [], items := [],
          current := some (Cur.named j),
          ini := { st.ini with
                   sections := modifyNthSec
                     (updateSec mergeSectionsOpt st.ini.isCaseSensitive st.items st.comments)
                     j st.ini.sections } }
    ∧ ∀ (flag : Bool) (items : List iniItem) (comments : List String) (sec : iniSection),
        (updateSec mergeSectionsOpt flag items comments sec).Comments = comments := by
  constructor
  · simp [handleSection, hpol, hfind, mergeSectionsOpt]
  · intro flag items comments sec
    simp only [updateSec, mergeSectionsOpt, addItems]
    split <;> rfl

/-- Witness for C5 amended on a one-section document under plain
merge. -/
theorem handleSection_plain_merge_witness :
    handleSection "s"
        ⟨["new"], [⟨[], "b", "2"⟩], some (Cur.named 0),
          { newINI "" false mergeSectionsOpt with sections := [⟨["old"], "s", []⟩] }⟩
      = { comments := [], items := [],
          current := some (Cur.named 0),
          ini := { newINI "" false mergeSectionsOpt with
                   sections := [⟨["new"], "s", [some ⟨[], "b", "2"⟩, none]⟩] } }
    ∧ ∀ (flag : Bool) (items : List iniItem) (comments : List String) (sec : iniSection),
        (updateSec mergeSectionsOpt flag items comments sec).Comments = comments := by
  have h := handleSection_plain_merge
    ⟨["new"], [⟨[], "b", "2"⟩], some (Cur.named 0),
      { newINI "" false mergeSectionsOpt with sections := [⟨["old"], "s", []⟩] }⟩
    "s" 0 rfl rfl
  exact ⟨h.1.trans (by rfl), h.2⟩

/-! ## C6: the block-separator invariant -/

/-- C6 counterexample: when a later batch dedups away every entry of an
earlier block, `ReadFrom` leaves the stranded separator in front, so the
produced section data begins with a block-separator sentinel. -/
theorem readFrom_breaks_separator_invariant :
    iniDefault.ReadFrom "[s]\na=1\n\na=2\n"
      = Except.ok
          { iniDefault with sections := [⟨[], "s", [none, some ⟨[], "a", "2"⟩, none]⟩] }
    ∧ InvData [none, some ⟨[], "a", "2"⟩, none] = false := by
  exact ⟨rfl, rfl⟩

theorem adjOK_some_cons (a : iniItem) (l : List (Option iniItem)) :
    adjOK (some a :: l) = adjOK l := by
  cases l <;> rfl

theorem adjOK_none_cons (l : List (Option iniItem)) :
    adjOK (none :: l) = true ↔ (headOK l = true ∧ adjOK l = true) := by
  cases l with
  | nil => simp [adjOK, headOK]
  | cons e rest => cases e <;> simp [adjOK, headOK, adjOK_some_cons]

theorem headOK_setKey (flag : Bool) (k v : String) (l : List (Option iniItem))
    (h : headOK l = true) : headOK (setKey flag k v l) = true := by
  cases l with
  | nil => rfl
  | cons e rest =>
    cases e with
    | none => simp [headOK] at h
    | some it =>
      simp only [setKey]
      split <;> rfl

theorem adjOK_setKey (flag : Bool) (k v : String) :
    ∀ l : List (Option iniItem), adjOK l = true → adjOK (setKey flag k v l) = true := by
  intro l
  induction l with
  | nil => intro h; rfl
  | cons e rest ih =>
    intro h
    cases e with
    | none =>
      rw [adjOK_none_cons] at h
      have h1 := headOK_setKey flag k v rest h.1
      have h2 := ih h.2
      simp only [setKey]
      rw [adjOK_none_cons]
      exact ⟨h1, h2⟩
    | some it =>
      rw [adjOK_some_cons] at h
      simp only [setKey]
      split
      · rw [adjOK_some_cons]; exact h
      · rw [adjOK_some_cons]; exact ih h

theorem headOK_append_none (l : List (Option iniItem)) (h : l ≠ []) :
    headOK (l ++ [none]) = headOK l := by
  cases l with
  | nil => exact absurd rfl h
  | cons e rest => cases e <;> rfl

theorem adjOK_append_none :
    ∀ l : List (Option iniItem), adjOK l = true → l.getLast? ≠ some none →
      adjOK (l ++ [none]) = true := by
  intro l
  induction l with
  | nil => intro _ _; rfl
  | cons e rest ih =>
    intro h hlast
    cases rest with
    | nil =>
      cases e with
      | none => simp at hlast
      | some a => rfl
    | cons f rest2 =>
      have hlast2 : (f :: rest2).getLast? ≠ some none := by
        simpa [List.getLast?_cons_cons] using hlast
      cases e with
      | none =>
        rw [adjOK_none_cons] at h
        have := ih h.2 hlast2
        simp only [List.cons_append]
        rw [adjOK_none_cons]
        constructor
        · cases f with
          | none => simp [headOK] at h
          | some b => rfl
        · simpa [List.cons_append] using this
      | some a =>
        rw [adjOK_some_cons] at h
        have := ih h hlast2
        simp only [List.cons_append]
        rw [adjOK_some_cons]
        simpa [List.cons_append] using this

theorem InvData_setInSec (flag : Bool) (k v : String) (sec : iniSection)
    (h : InvData sec.Data = true) : InvData (setInSec flag k v sec).Data = true := by
  obtain ⟨h1, h2⟩ := by simpa [InvData, Bool.and_eq_true] using h
  simp only [setInSec]
  split
  · split
    · next x heq =>
      have hne : sec.Data ≠ [] := by
        intro hd; rw [hd] at heq; simp at heq
      have hlast : sec.Data.getLast? ≠ some none := by
        rw [heq]; intro hc; cases hc
      simp only [InvData, Bool.and_eq_true]
      exact ⟨by rw [headOK_append_none sec.Data hne]; exact h1,
             adjOK_append_none sec.Data h2 hlast⟩
    · simpa [InvData, Bool.and_eq_true] using ⟨h1, h2⟩
  · simp only [InvData, Bool.and_eq_true]
    exact ⟨headOK_setKey flag k v sec.Data h1, adjOK_setKey flag k v sec.Data h2⟩

theorem rmKeyAux_inv (flag : Bool) (key : String) :
    ∀ (l : List (Option iniItem)) (p : Bool), adjOK l = true →
      adjOK (rmKeyAux flag key p l).1 = true
      ∧ (p = true → headOK l = true → headOK (rmKeyAux flag key p l).1 = true) := by
  intro l
  induction l with
  | nil => intro p _; exact ⟨rfl, fun _ _ => rfl⟩
  | cons e rest ih =>
    intro p h
    cases e with
    | none =>
      rw [adjOK_none_cons] at h
      have hr := ih true h.2
      have hhead := hr.2 rfl h.1
      simp only [rmKeyAux]
      constructor
      · rw [adjOK_none_cons]
        exact ⟨hhead, hr.1⟩
      · intro _ hcontra
        simp [headOK] at hcontra
    | some it =>
      rw [adjOK_some_cons] at h
      simp only [rmKeyAux]
      split
      · -- the key matches: remove it (and possibly the separator after it)
        cases rest with
        | nil => exact ⟨rfl, fun _ _ => rfl⟩
        | cons f rest2 =>
          cases f with
          | none =>
            rw [adjOK_none_cons] at h
            cases p with
            | true => exact ⟨h.2, fun _ _ => h.1⟩
            | false =>
              refine ⟨?_, fun hp _ => by cases hp⟩
              show adjOK (none :: rest2) = true
              exact (adjOK_none_cons rest2).mpr h
          | some b => exact ⟨h, fun _ _ => rfl⟩
      · -- no match: keep the entry, recurse
        have hr := ih false h
        constructor
        · rw [adjOK_some_cons]
          exact hr.1
        · intro _ _; rfl

theorem InvData_rmKey (flag : Bool) (key : String) (d : List (Option iniItem))
    (h : InvData d = true) : InvData (rmKey flag key d).1 = true := by
  obtain ⟨h1, h2⟩ := by simpa [InvData, Bool.and_eq_true] using h
  have hr := rmKeyAux_inv flag key d true h2
  simp only [InvData, Bool.and_eq_true, rmKey]
  exact ⟨hr.2 rfl h1, hr.1⟩

theorem all_setSec (flag : Bool) (sn k v : String) :
    ∀ secs : List iniSection, (secs.all fun s => InvData s.Data) = true →
      ((setSec flag sn k v secs).all fun s => InvData s.Data) = true := by
  intro secs
  induction secs with
  | nil =>
    intro _
    simp only [setSec, List.all_cons, List.all_nil, Bool.and_true]
    exact InvData_setInSec flag k v ⟨[], sn, []⟩ rfl
  | cons sec rest ih =>
    intro h
    simp only [List.all_cons, Bool.and_eq_true] at h
    simp only [setSec]
    split
    · simp only [List.all_cons, Bool.and_eq_true]
      exact ⟨InvData_setInSec flag k v { sec with Name := sn } h.1, h.2⟩
    · simp only [List.all_cons, Bool.and_eq_true]
      exact ⟨h.1, ih h.2⟩

theorem all_rmSec (flag : Bool) (sn : String) :
    ∀ secs : List iniSection, (secs.all fun s => InvData s.Data) = true →
      ((rmSec flag sn secs).1.all fun s => InvData s.Data) = true := by
  intro secs
  induction secs with
  | nil => intro _; rfl
  | cons sec rest ih =>
    intro h
    simp only [List.all_cons, Bool.and_eq_true] at h
    simp only [rmSec]
    split
    · exact by simpa using h.2
    · simp only [List.all_cons, Bool.and_eq_true]
      exact ⟨h.1, ih h.2⟩

theorem all_modifyNthSec (P : iniSection → Bool) (f : iniSection → iniSection) :
    ∀ (l : List iniSection) (j : Nat), (l.all P) = true →
      (∀ s, l.get? j = some s → P (f s) = true) →
      ((modifyNthSec f j l).all P) = true := by
  intro l
  induction l with
  | nil => intro j h _; cases j <;> exact h
  | cons sec rest ih =>
    intro j h hf
    simp only [List.all_cons, Bool.and_eq_true] at h
    cases j with
    | zero =>
      simp only [modifyNthSec, List.all_cons, Bool.and_eq_true]
      exact ⟨hf sec rfl, h.2⟩
    | succ j =>
      simp only [modifyNthSec, List.all_cons, Bool.and_eq_true]
      exact ⟨h.1, ih j h.2 (fun s hs => hf s hs)⟩

/-- C6 amended: the mutation API preserves the separator invariant: for
any document whose every section satisfies it, both `Set` (any key,
including the separator-appending empty key) and `Del` leave every
section's data without a leading separator and without adjacent
separators.  (`ReadFrom` does not preserve it, as shown above.) -/
theorem set_del_preserve_separator_invariant (ini : INI) (sname key value : String)
    (h : InvINI ini = true) :
    InvINI (ini.Set sname key value) = true ∧ InvINI (ini.Del sname key).1 = true := by
  obtain ⟨hg, hs⟩ := by simpa only [InvINI, Bool.and_eq_true] using h
  constructor
  · simp only [INI.Set]
    split
    · simp only [InvINI, Bool.and_eq_true]
      exact ⟨InvData_setInSec _ _ _ { ini.global with Name := sname } hg, hs⟩
    · simp only [InvINI, Bool.and_eq_true]
      exact ⟨hg, all_setSec _ _ _ _ ini.sections hs⟩
  · simp only [INI.Del]
    split
    · split
      · simp only [InvINI, Bool.and_eq_true]
        exact ⟨rfl, hs⟩
      · simp only [InvINI, Bool.and_eq_true]
        exact ⟨hg, all_rmSec _ _ ini.sections hs⟩
    · split
      · simp only [InvINI, Bool.and_eq_true]
        exact ⟨InvData_rmKey _ _ _ hg, hs⟩
      · split
        · simp only [InvINI, Bool.and_eq_true]; exact ⟨hg, hs⟩
        · next j hj =>
          split
          · simp only [InvINI, Bool.and_eq_true]; exact ⟨hg, hs⟩
          · next sec hsec =>
            simp only [InvINI, Bool.and_eq_true]
            refine ⟨hg, all_modifyNthSec _ _ ini.sections j hs ?_⟩
            intro s hsj
            rw [hsec] at hsj
            cases hsj
            have hPsec : InvData sec.Data = true := by
              have hmem : sec ∈ ini.sections := List.get?_mem hsec
              exact (List.all_eq_true.mp hs) sec hmem
            exact InvData_rmKey _ _ _ hPsec

/-- Witness for C6 amended on a small concrete document. -/
theorem set_del_preserve_separator_invariant_witness :
    InvINI { iniDefault with global := ⟨[], "", [some ⟨[], "g", "1"⟩, none]⟩ } = true
    ∧ InvINI (INI.Set { iniDefault with global := ⟨[], "", [some ⟨[], "g", "1"⟩, none]⟩ }
        "s" "" "") = true
    ∧ InvINI (INI.Del { iniDefault with global := ⟨[], "", [some ⟨[], "g", "1"⟩, none]⟩ }
        "" "g").1 = true := by
  have h := set_del_preserve_separator_invariant
    { iniDefault with global := ⟨[], "", [some ⟨[], "g", "1"⟩, none]⟩ } "s" "" "" (by rfl)
  have h2 := set_del_preserve_separator_invariant
    { iniDefault with global := ⟨[], "", [some ⟨[], "g", "1"⟩, none]⟩ } "" "g" "" (by rfl)
  exact ⟨rfl, h.1, h2.2⟩

/-! ## C7: structural parse errors and line numbers -/

/-- C7 counterexample: the empty-section-name error aborts the read at
line 2 but is the bare `errInvalidSectionName` value, carrying no line
number (every line-numbered reader error starts with "ini:"). -/
theorem empty_section_name_error_has_no_line_number :
    iniDefault.ReadFrom "x=1\n[]\n" = Except.error (RFail.fail "invalid section name")
    ∧ ("ini:".data.isPrefixOf "invalid section name".data) = false := by
  exact ⟨rfl, rfl⟩

theorem processLine_err_shape (n : Nat) (raw : List Char) (st : RState) (msg : String)
    (h : processLine n raw st = Except.error (RFail.fail msg)) :
    (∃ t, msg = "ini: " ++ toString n ++ t) ∨ msg = "invalid section name" := by
  simp only [processLine] at h
  repeat' split at h
  all_goals
    first
    | exact Except.noConfusion h
    | (injection h with h1; exact RFail.noConfusion h1)
    | (injection h with h1; injection h1 with h2; subst h2;
       first
       | exact Or.inr rfl
       | exact Or.inl ⟨": missing ]", rfl⟩
       | exact Or.inl ⟨": missing =", rfl⟩
       | exact Or.inl ⟨": " ++ _, by rw [String.append_assoc]⟩)

theorem readLoop_err_shape :
    ∀ (lines : List (List Char)) (n : Nat) (st : RState) (msg : String),
      readLoop lines n st = Except.error (RFail.fail msg) →
      (∃ (k : Nat) (t : String), msg = "ini: " ++ toString k ++ t) ∨ msg = "invalid section name" := by
  intro lines
  induction lines with
  | nil => intro n st msg h; exact Except.noConfusion h
  | cons l rest ih =>
    intro n st msg h
    simp only [readLoop] at h
    split at h
    · injection h with h1
      subst h1
      rcases processLine_err_shape n l st msg (by assumption) with ⟨t, ht⟩ | hv
      · exact Or.inl ⟨n, t, ht⟩
      · exact Or.inr hv
    · exact ih (n+1) _ msg h

/-- C7 amended: every error returned by the reader is either one of the
line-numbered structural errors — missing `]`, missing `=`, or a value
scan failure such as an unterminated literal, all of the form
`ini: <line>: ...` with the 1-based line number — or the bare
`invalid section name` error, which carries no line number. -/
theorem readFrom_error_shape (ini : INI) (input : String) (msg : String)
    (h : ini.ReadFrom input = Except.error (RFail.fail msg)) :
    (∃ (k : Nat) (t : String), msg = "ini: " ++ toString k ++ t) ∨ msg = "invalid section name" := by
  exact readLoop_err_shape _ _ _ _ h

/-- Witness for C7 amended at the unterminated-header input `[x`. -/
theorem readFrom_error_shape_witness :
    iniDefault.ReadFrom "[x\n" = Except.error (RFail.fail "ini: 1: missing ]")
    ∧ ((∃ (k : Nat) (t : String), "ini: 1: missing ]" = "ini: " ++ toString k ++ t)
        ∨ "ini: 1: missing ]" = "invalid section name") :=
  ⟨rfl, readFrom_error_shape iniDefault "[x\n" "ini: 1: missing ]" rfl⟩

/-! ## C8: comment lines and the configured prefix -/

/-- C8 counterexample: with the two-byte comment prefix `//`, the line
`//hello` is recognized by the full-prefix check but only its first byte
is stripped: the recorded comment is `/hello`, not `hello`. -/
theorem comment_prefix_not_fully_stripped :
    ((newINI "//" false 0).ReadFrom "//hello\n[s]\n").map (fun d => d.GetComments "s" "")
      = Except.ok ["/hello"]
    ∧ (["/hello"] : List String) ≠ ["hello"] := by
  refine ⟨rfl, ?_⟩
  decide

/-- C8 amended: a line that starts with the configured comment prefix is
recorded in the pending-comments buffer with exactly ONE leading byte
removed (`line[1:]` in the source); this equals stripping the whole
prefix precisely when the prefix is a single byte, as the default `;`
is. -/
theorem comment_line_strips_first_byte (n : Nat) (raw : List Char) (st : RState)
    (c : Char) (ptail text : List Char)
    (hp : st.ini.comment.data = c :: ptail)
    (hsp : goIsSpace c = false)
    (hbr : (c == '[') = false)
    (hnl : stripNewline raw = c :: (ptail ++ text)) :
    processLine n raw st
      = Except.ok { st with comments := st.comments ++ [(⟨ptail ++ text⟩ : String)] }
    ∧ (ptail = [] → (⟨ptail ++ text⟩ : String) = (⟨text⟩ : String)) := by
  constructor
  · have hpre : st.ini.comment.data.isPrefixOf (c :: (ptail ++ text)) = true := by
      rw [hp]
      show (c :: ptail).isPrefixOf ((c :: ptail) ++ text) = true
      rw [List.isPrefixOf_iff_prefix]
      exact List.prefix_append _ _
    simp only [processLine, hnl, List.dropWhile_cons, hsp]
    simp only [Bool.false_eq_true, if_false, List.isEmpty_cons, List.headD_cons, hbr, hpre,
      if_true, List.drop_succ_cons, List.drop_zero]
  · intro h
    subst h
    rfl

/-! ## C9: Get after Set -/

theorem getVal_setKey (flag : Bool) (key value : String) :
    ∀ l : List (Option iniItem), getVal? flag key (setKey flag key value l) = some value := by
  intro l
  induction l with
  | nil =>
    simp only [setKey, getVal?]
    rw [if_pos (by simp)]
  | cons e rest ih =>
    cases e with
    | none => simpa only [setKey, getVal?] using ih
    | some it =>
      simp only [setKey]
      split
      · simp only [getVal?]
        rw [if_pos (by simp)]
      · next hc =>
        simp only [getVal?]
        rw [if_neg (by simpa using hc)]
        exact ih

theorem findSec_setSec (flag : Bool) (sname key value : String) (hk : key ≠ "") :
    ∀ secs : List iniSection,
      ∃ sec, findSec? flag sname (setSec flag sname key value secs) = some sec
        ∧ getVal? flag key sec.Data = some value := by
  intro secs
  induction secs with
  | nil =>
    refine ⟨⟨[], sname, setKey flag key value []⟩, ?_, ?_⟩
    · simp only [setSec, setInSec, if_neg hk, findSec?]
      rw [if_pos (by simp)]
    · exact getVal_setKey flag key value []
  | cons sec rest ih =>
    simp only [setSec]
    split
    · refine ⟨setInSec flag key value { sec with Name := sname }, ?_, ?_⟩
      · simp only [setInSec, if_neg hk, findSec?]
        rw [if_pos (by simp)]
      · simp only [setInSec, if_neg hk]
        exact getVal_setKey flag key value sec.Data
    · obtain ⟨sec1, h1, h2⟩ := ih
      refine ⟨sec1, ?_, h2⟩
      simp only [findSec?]
      rw [if_neg (by next hc => simpa using hc)]
      exact h1

/-- C9: for every document state, every section name, every non-empty
key and every value (in particular values containing `=`), `Get`
immediately after `Set` returns exactly the value that was set. -/
theorem get_after_set (ini : INI) (sname key value : String) (hk : key ≠ "") :
    (ini.Set sname key value).Get sname key = value := by
  by_cases hs : sname = ""
  · subst hs
    simp only [INI.Set, if_pos rfl, INI.Get, INI.getSectionVal, setInSec, if_neg hk, if_true]
    rw [getVal_setKey]
  · simp only [INI.Set, if_neg hs, INI.Get, INI.getSectionVal]
    obtain ⟨sec, h1, h2⟩ := findSec_setSec ini.isCaseSensitive sname key value hk ini.sections
    rw [h1]
    show (match getVal? ini.isCaseSensitive key sec.Data with
          | none => ""
          | some v => v) = value
    rw [h2]

/-- Witness for C9 with a value containing `=` and a fresh section. -/
theorem get_after_set_witness :
    ("k1" : String) ≠ "" ∧ (iniDefault.Set "secA" "k1" "a=b").Get "secA" "k1" = "a=b" :=
  ⟨by decide, get_after_set iniDefault "secA" "k1" "a=b" (by decide)⟩

/-- Witness for C8 amended: the two-byte prefix `//` on the line
`//hello` records the comment `/hello`. -/
theorem comment_line_strips_first_byte_witness :
    processLine 1 "//hello\n".data ⟨[], [], none, newINI "//" false 0⟩
      = Except.ok ⟨["/hello"], [], none, newINI "//" false 0⟩ :=
  ((comment_line_strips_first_byte 1 "//hello\n".data ⟨[], [], none, newINI "//" false 0⟩
      '/' ['/'] "hello".data rfl rfl rfl rfl).1).trans (by rfl)

/-! ## C10: Set rewrites the stored section name and key in place -/

theorem setSec_split (flag : Bool) (sname key value : String)
    (post : List iniSection) (sec : iniSection) :
    ∀ pre : List iniSection,
      (∀ s ∈ pre, (ident flag s.Name == ident flag sname) = false) →
      (ident flag sec.Name == ident flag sname) = true →
      setSec flag sname key value (pre ++ sec :: post)
        = pre ++ setInSec flag key value { sec with Name := sname } :: post := by
  intro pre
  induction pre with
  | nil =>
    intro _ hsec
    simp only [List.nil_append, setSec]
    rw [if_pos hsec]
  | cons s rest ih =>
    intro hpre hsec
    simp only [List.cons_append, setSec, List.append_eq]
    rw [if_neg (by simpa using hpre s (by simp))]
    rw [ih (fun x hx => hpre x (by simp [hx])) hsec]

theorem setKey_split (flag : Bool) (key value : String)
    (dpost : List (Option iniItem)) (it : iniItem) :
    ∀ dpre : List (Option iniItem),
      (∀ j, some j ∈ dpre → (ident flag j.Key == ident flag key) = false) →
      (ident flag it.Key == ident flag key) = true →
      setKey flag key value (dpre ++ some it :: dpost)
        = dpre ++ some { it with Key := key, Value := value } :: dpost := by
  intro dpre
  induction dpre with
  | nil =>
    intro _ hit
    simp only [List.nil_append, setKey]
    rw [if_pos hit]
  | cons e rest ih =>
    intro hdpre hit
    cases e with
    | none =>
      simp only [List.cons_append, setKey, List.append_eq]
      rw [ih (fun j hj => hdpre j (by simp [hj])) hit]
    | some j =>
      simp only [List.cons_append, setKey, List.append_eq]
      rw [if_neg (by simpa using hdpre j (by simp))]
      rw [ih (fun x hx => hdpre x (by simp [hx])) hit]

theorem findSec_split (flag : Bool) (sname : String)
    (post : List iniSection) (sec : iniSection) :
    ∀ pre : List iniSection,
      (∀ s ∈ pre, (ident flag s.Name == ident flag sname) = false) →
      (ident flag sec.Name == ident flag sname) = true →
      findSec? flag sname (pre ++ sec :: post) = some sec := by
  intro pre
  induction pre with
  | nil =>
    intro _ hsec
    simp only [List.nil_append, findSec?]
    rw [if_pos hsec]
  | cons s rest ih =>
    intro hpre hsec
    simp only [List.cons_append, findSec?, List.append_eq]
    rw [if_neg (by simpa using hpre s (by simp))]
    exact ih (fun x hx => hpre x (by simp [hx])) hsec

/-- C10: in case-insensitive mode, `Set` on a section and key that exist
(under any casing) rewrites the stored section name and stored key to
the exact argument strings in place — which is what `Sections`, `Keys`
and `WriteTo` subsequently report — while the entry's comments, its
position, the other entries of the section and all other sections are
unchanged. -/
theorem set_rewrites_section_name_and_key
    (ini : INI) (sname key value : String)
    (pre post : List iniSection) (sec : iniSection)
    (dpre dpost : List (Option iniItem)) (it : iniItem)
    (hcs : ini.isCaseSensitive = false)
    (hs : sname ≠ "") (hk : key ≠ "")
    (hsecs : ini.sections = pre ++ sec :: post)
    (hpre : ∀ s ∈ pre, (ident false s.Name == ident false sname) = false)
    (hsec : (ident false sec.Name == ident false sname) = true)
    (hdata : sec.Data = dpre ++ some it :: dpost)
    (hdpre : ∀ j, some j ∈ dpre → (ident false j.Key == ident false key) = false)
    (hit : (ident false it.Key == ident false key) = true) :
    ini.Set sname key value
      = { ini with sections :=
            pre ++ { sec with
                     Name := sname
                     Data := dpre ++ some { it with Key := key, Value := value } :: dpost }
              :: post }
    ∧ (ini.Set sname key value).Sections
        = pre.map (fun s => s.Name) ++ sname :: post.map (fun s => s.Name)
    ∧ (ini.Set sname key value).Keys sname
        = dpre.map (fun e => match e with | none => "" | some j => j.Key)
            ++ key :: dpost.map (fun e => match e with | none => "" | some j => j.Key) := by
  have hmain : ini.Set sname key value
      = { ini with sections :=
            pre ++ { sec with
                     Name := sname
                     Data := dpre ++ some { it with Key := key, Value := value } :: dpost }
              :: post } := by
    simp only [INI.Set, if_neg hs, hcs, hsecs]
    rw [setSec_split false sname key value post sec pre hpre hsec]
    simp only [setInSec, if_neg hk]
    rw [show ({ sec with Name := sname } : iniSection).Data = sec.Data from rfl, hdata,
      setKey_split false key value dpost it dpre hdpre hit]
  refine ⟨hmain, ?_, ?_⟩
  · rw [hmain]
    simp only [INI.Sections, List.map_append, List.map_cons]
  · rw [hmain]
    simp only [INI.Keys, INI.getSectionVal, if_neg hs, hcs]
    rw [findSec_split false sname post _ pre hpre (by simp)]
    simp only [List.map_append, List.map_cons]

/-- Witness for C10: `Set "seca" "keyb"` on a document whose section is
stored as `SecA` with key `KeyB` rewrites both spellings and keeps the
entry's comments. -/
theorem set_rewrites_section_name_and_key_witness :
    INI.Set { iniDefault with sections := [⟨[], "SecA", [some ⟨["c"], "KeyB", "old"⟩]⟩] }
        "seca" "keyb" "new"
      = { iniDefault with sections := [⟨[], "seca", [some ⟨["c"], "keyb", "new"⟩]⟩] }
    ∧ (INI.Set { iniDefault with sections := [⟨[], "SecA", [some ⟨["c"], "KeyB", "old"⟩]⟩] }
        "seca" "keyb" "new").Sections = ["seca"]
    ∧ (INI.Set { iniDefault with sections := [⟨[], "SecA", [some ⟨["c"], "KeyB", "old"⟩]⟩] }
        "seca" "keyb" "new").Keys "seca" = ["keyb"] := by
  have h := set_rewrites_section_name_and_key
    { iniDefault with sections := [⟨[], "SecA", [some ⟨["c"], "KeyB", "old"⟩]⟩] }
    "seca" "keyb" "new" [] [] ⟨[], "SecA", [some ⟨["c"], "KeyB", "old"⟩]⟩
    [] [] ⟨["c"], "KeyB", "old"⟩
    rfl (by decide) (by decide) rfl (by intro s hx; cases hx) (by decide) rfl
    (by intro j hj; cases hj) (by decide)
  exact ⟨h.1.trans (by rfl), h.2.1.trans (by rfl), h.2.2.trans (by rfl)⟩
